import Mathlib

/- Shallow embedding of src/Quoridor.py (class QuoridorGame).

   The Python board is a list of three 9x9 lists of ints, indexed as
   board[layer][column][row].  Python list subscription with a negative
   index wraps around by the length, and an index past the end raises
   IndexError; both behaviours are modelled by pyGet, which returns
   Option.  Throughout the embedding a result of none models an uncaught
   Python exception (TypeError or IndexError) escaping the method.

   Python methods that can fall off the end of their body return None,
   which is falsy.  The only consumer of such values here is move_pawn,
   which treats the value of _is_legal_move as a boolean, so a falsy
   None return value inside the jump helpers is modelled as some false;
   each such spot is noted with a comment. -/

namespace Quoridor

abbrev Cell := Int × Int
abbrev Grid := List (List Int)

/-- The effective index of a Python list subscription: a negative index
is shifted up by the length. -/
def pyIndex (len : Nat) (i : Int) : Int :=
  if i < 0 then i + len else i

/-- Python list subscription: a negative index wraps by the length, an
index that is still out of range raises (none). -/
def pyGet {α : Type} (l : List α) (i : Int) : Option α :=
  if pyIndex l.length i < 0 then none
  else l.get? (pyIndex l.length i).toNat

/-- Read board[x][y] with Python subscription semantics. -/
def gridGet (g : Grid) (x y : Int) : Option Int :=
  (pyGet g x).bind fun col => pyGet col y

/-- Python list element assignment board[x][y] = v.  All call sites in
the source first establish 0 <= x <= 8 and 0 <= y <= 8, so plain
truncating set is faithful there. -/
def setCell (g : Grid) (x y : Int) (v : Int) : Grid :=
  g.set x.toNat (((g.get? x.toNat).getD []).set y.toNat v)

/-- State of a QuoridorGame instance: the three board layers
(pawns, vertical fences, horizontal fences), the two fence counters and
the turn flag. -/
structure Game where
  board0 : Grid
  board1 : Grid
  board2 : Grid
  playerOneFences : Int
  playerTwoFences : Int
  firstPlayerTurn : Bool
deriving DecidableEq

def zeroGrid : Grid := List.replicate 9 (List.replicate 9 0)

/-- QuoridorGame.__init__: pawns at (4,0) and (4,8), ten fences each,
player 1 to move. -/
def initGame : Game :=
  Game.mk (setCell (setCell zeroGrid 4 0 1) 4 8 2) zeroGrid zeroGrid 10 10 true

/-- QuoridorGame._position: scan columns 0..8; in the first column whose
list contains the player value, return the first matching row.  Returns
none when the player value appears nowhere (Python returns None). -/
def position (b0 : Grid) (player : Int) : Option Cell :=
  (List.range 9).findSome? fun c =>
    (b0.get? c).bind fun col =>
      if player ∈ col then
        (List.range 9).findSome? fun r =>
          (col.get? r).bind fun v =>
            if v = player then some ((c : Int), (r : Int)) else none
      else none

/-- The list built inside QuoridorGame._is_adjacent. -/
def adjacent_squares (o : Cell) : List Cell :=
  [(o.1, o.2 + 1), (o.1, o.2 - 1), (o.1 + 1, o.2), (o.1 - 1, o.2)]

/-- QuoridorGame._is_adjacent for two concrete tuples. -/
def is_adjacent (o t : Cell) : Bool :=
  decide (t ∈ adjacent_squares o)

/-- The opponent as computed from the turn flag (used by _move_blocked,
_is_legal_jump and the diagonal helpers). -/
def turnOpponent (g : Game) : Int :=
  if g.firstPlayerTurn then 2 else 1

/-- QuoridorGame._move_blocked: a step from origin to destination is
blocked when the destination holds the turn opponent pawn, or when the
fence cell the source consults is nonzero.  Note that each fence anchor
governs exactly one cell edge here. -/
def move_blocked (g : Game) (origin destination : Cell) : Option Bool :=
  if position g.board0 (turnOpponent g) = some destination then some true
  else if origin.1 = destination.1 then
    if destination.2 < origin.2 then
      (gridGet g.board2 origin.1 origin.2).map (fun v => decide (v ≠ 0))
    else
      (gridGet g.board2 origin.1 (origin.2 + 1)).map (fun v => decide (v ≠ 0))
  else
    if destination.1 < origin.1 then
      (gridGet g.board1 origin.1 origin.2).map (fun v => decide (v ≠ 0))
    else
      (gridGet g.board1 (origin.1 + 1) origin.2).map (fun v => decide (v ≠ 0))

/-- QuoridorGame._is_legal_diagonal_from_column.  A falsy fall-off-the-end
None return is modelled as some false. -/
def is_legal_diagonal_from_column (g : Game) (player : Int) (target : Cell) :
    Option Bool :=
  match position g.board0 player, position g.board0 (turnOpponent g) with
  | some pp, some op =>
    if op.1 = pp.1 then
      if op.2 = target.2 ∧ target.2 = pp.2 + 1 then
        match gridGet g.board2 op.1 op.2 with
        | none => none
        | some f =>
          if f ≠ 0 then
            if target.1 = op.1 + 1 then
              (gridGet g.board1 (op.1 + 1) op.2).map (fun v => decide (v = 0))
            else if target.1 = op.1 - 1 then
              (gridGet g.board1 op.1 op.2).map (fun v => decide (v = 0))
            else some false
          else some false
      else if op.2 = target.2 ∧ target.2 = pp.2 - 1 then
        match gridGet g.board2 op.1 (op.2 + 1) with
        | none => none
        | some f =>
          if f ≠ 0 then
            if target.1 = op.1 + 1 then
              (gridGet g.board1 (op.1 + 1) op.2).map (fun v => decide (v = 0))
            else if target.1 = op.1 - 1 then
              (gridGet g.board1 op.1 op.2).map (fun v => decide (v = 0))
            else some false
          else some false
      else some false
    else some false
  | _, _ => none

/-- QuoridorGame._is_legal_diagonal_from_row.  A falsy fall-off-the-end
None return is modelled as some false. -/
def is_legal_diagonal_from_row (g : Game) (player : Int) (target : Cell) :
    Option Bool :=
  match position g.board0 player, position g.board0 (turnOpponent g) with
  | some pp, some op =>
    if op.2 = pp.2 then
      if op.1 = target.1 ∧ target.1 = pp.1 + 1 then
        match gridGet g.board1 (op.1 + 1) op.2 with
        | none => none
        | some f =>
          if f ≠ 0 then
            if target.2 = op.2 + 1 then
              (gridGet g.board2 op.1 op.2).map (fun v => decide (v = 0))
            else if target.2 = op.2 - 1 then
              (gridGet g.board2 op.1 (op.2 + 1)).map (fun v => decide (v = 0))
            else some false
          else some false
      else if op.1 = target.1 ∧ target.1 = pp.1 - 1 then
        match gridGet g.board1 op.1 op.2 with
        | none => none
        | some f =>
          if f ≠ 0 then
            if target.2 = op.2 + 1 then
              (gridGet g.board2 op.1 op.2).map (fun v => decide (v = 0))
            else if target.2 = op.2 - 1 then
              (gridGet g.board2 op.1 (op.2 + 1)).map (fun v => decide (v = 0))
            else some false
          else some false
      else some false
    else some false
  | _, _ => none

/-- QuoridorGame._is_legal_diagonal: the column helper, or else the row
helper (Python or, with the crash of the first propagating). -/
def is_legal_diagonal (g : Game) (player : Int) (target : Cell) : Option Bool :=
  match is_legal_diagonal_from_column g player target with
  | none => none
  | some true => some true
  | some false => is_legal_diagonal_from_row g player target

/-- QuoridorGame._is_legal_jump.  Straight-jump branches whose inner
fence test fails fall off the end of the Python function and return
None (falsy); modelled as some false.  Python short-circuit of the two
fence reads is preserved. -/
def is_legal_jump (g : Game) (player : Int) (target : Cell) : Option Bool :=
  match position g.board0 player, position g.board0 (turnOpponent g) with
  | some pp, some op =>
    if pp.1 = target.1 ∧ target.1 = op.1 then
      if target.2 = pp.2 + 2 ∧ op.2 = pp.2 + 1 then
        match gridGet g.board2 target.1 target.2 with
        | none => none
        | some a =>
          if a = 0 then
            (gridGet g.board2 target.1 (target.2 - 1)).map (fun b => decide (b = 0))
          else some false
      else if target.2 = pp.2 - 2 ∧ op.2 = pp.2 - 1 then
        match gridGet g.board2 target.1 (target.2 + 1) with
        | none => none
        | some a =>
          if a = 0 then
            (gridGet g.board2 target.1 (target.2 + 2)).map (fun b => decide (b = 0))
          else some false
      else some false
    else if pp.2 = target.2 ∧ target.2 = op.2 then
      if target.1 = pp.1 + 2 ∧ op.1 = pp.1 + 1 then
        match gridGet g.board1 target.1 target.2 with
        | none => none
        | some a =>
          if a = 0 then
            (gridGet g.board1 target.1 (target.2 - 1)).map (fun b => decide (b = 0))
          else some false
      else if target.1 = pp.1 - 2 ∧ op.1 = pp.1 - 1 then
        match gridGet g.board1 (target.1 + 1) target.2 with
        | none => none
        | some a =>
          if a = 0 then
            (gridGet g.board1 (target.1 + 2) target.2).map (fun b => decide (b = 0))
          else some false
      else some false
    else is_legal_diagonal g player target
  | _, _ => none

/-- QuoridorGame._is_legal_move.  When _position(player) is None, the
first _is_adjacent call subscripts None and raises TypeError (none
here); a None _position of the opponent is tolerated by _is_adjacent
(tuple membership of None is just False). -/
def is_legal_move (g : Game) (player : Int) (destination : Cell) : Option Bool :=
  if ¬ (0 ≤ destination.1 ∧ destination.1 ≤ 8 ∧ 0 ≤ destination.2 ∧ destination.2 ≤ 8) then
    some false
  else
    let opponent : Int := if player = 1 then 2 else 1
    match position g.board0 player with
    | none => none
    | some pp =>
      let adjOpp : Bool :=
        match position g.board0 opponent with
        | none => false
        | some op => is_adjacent pp op
      if adjOpp && ! is_adjacent pp destination then
        is_legal_jump g player destination
      else if ! is_adjacent pp destination then some false
      else
        match move_blocked g pp destination with
        | none => none
        | some true => some false
        | some false => some true

/-- QuoridorGame.is_winner.  For player 1 the result is whether the
pawn row is 8, for player 2 whether it is 0, False for any other player
value; a missing pawn makes the subscription of None raise. -/
def is_winner (g : Game) (player : Int) : Option Bool :=
  if player = 1 then
    (position g.board0 1).map fun p => decide (p.2 = 8)
  else if player = 2 then
    (position g.board0 2).map fun p => decide (p.2 = 0)
  else some false

/-- QuoridorGame._player_may_move (with the Python short-circuit of the
two is_winner calls). -/
def player_may_move (g : Game) (player : Int) : Option Bool :=
  (is_winner g 1).bind fun w1 =>
    if w1 then some false
    else
      (is_winner g 2).bind fun w2 =>
        if w2 then some false
        else
          if player = 1 ∧ ¬ g.firstPlayerTurn then some false
          else if player = 2 ∧ g.firstPlayerTurn then some false
          else some true

/-- QuoridorGame.move_pawn: the returned pair is the Python return value
together with the state of the instance after the call. -/
def move_pawn (g : Game) (player : Int) (destination : Cell) :
    Option (Bool × Game) :=
  (player_may_move g player).bind fun pm =>
    if pm = false then some (false, g)
    else
      (is_legal_move g player destination).bind fun ok =>
        if ok = false then some (false, g)
        else
          (position g.board0 player).bind fun p =>
            some (true, Game.mk
              (setCell (setCell g.board0 p.1 p.2 0)
                destination.1 destination.2 player)
              g.board1 g.board2
              g.playerOneFences g.playerTwoFences (! g.firstPlayerTurn))

/-- Bounds test 0 <= x <= 8 and 0 <= y <= 8 used inside
_rec_is_valid_path. -/
def inB (c : Cell) : Bool :=
  decide (0 ≤ c.1 ∧ c.1 ≤ 8 ∧ 0 ≤ c.2 ∧ c.2 ≤ 8)

/-- The new_list of candidate spaces built inside _rec_is_valid_path,
in source order: up, down, left, right. -/
def new_list (sp : Cell) : List Cell :=
  [(sp.1, sp.2 + 1), (sp.1, sp.2 - 1), (sp.1 - 1, sp.2), (sp.1 + 1, sp.2)]

/-- One step of the inner for-loop body of _rec_is_valid_path for a
single candidate space: append it when it is inside the board, not
blocked from the current space, and not yet in the list, counting the
append.  A none accumulator (a raised exception) propagates. -/
def addSpace1 (g : Game) (sp : Cell) (l : List Cell) (c : Nat) (ns : Cell) :
    Option (List Cell × Nat) :=
  if inB ns then
    (move_blocked g sp ns).bind fun b =>
      if b then some (l, c)
      else if ns ∈ l then some (l, c) else some (l ++ [ns], c + 1)
  else some (l, c)

/-- The loop body lifted to an Option accumulator: a none accumulator
(a raised exception earlier in the loop) propagates. -/
def addSpace (g : Game) (sp : Cell) (acc : Option (List Cell × Nat)) (ns : Cell) :
    Option (List Cell × Nat) :=
  acc.bind fun lc => addSpace1 g sp lc.1 lc.2 ns

/-- Process all four candidate neighbours of one space. -/
def tryAddAll (g : Game) (sp : Cell) (l : List Cell) (c : Nat) :
    Option (List Cell × Nat) :=
  (new_list sp).foldl (addSpace g sp) (some (l, c))

inductive LoopRes where
  | found : LoopRes
  | finished : List Cell → Nat → LoopRes
deriving DecidableEq

/-- The for-loop of _rec_is_valid_path.  Python iterates over
space_list by index while the body appends to the same list, so newly
added spaces are visited later in the same loop; this is modelled by
the explicit index i.  The fuel argument is a modelling device; fuel
82 is proved sufficient below (the list holds distinct in-bounds cells,
so it never exceeds 81 elements). -/
def innerLoop (g : Game) (endRow : Int) :
    Nat → List Cell → Nat → Nat → Option LoopRes
  | 0, _, _, _ => none
  | fuel + 1, l, i, addc =>
    match l.get? i with
    | none => some (LoopRes.finished l addc)
    | some sp =>
      if sp.2 = endRow then some LoopRes.found
      else
        (tryAddAll g sp l addc).bind fun lc =>
          innerLoop g endRow fuel lc.1 (i + 1) lc.2

/-- QuoridorGame._rec_is_valid_path: run the loop; True when a space in
the goal row was visited, False when no space was added, otherwise
recurse on the grown list.  Outer fuel 81 is proved sufficient below:
each recursive call strictly grows the list of distinct in-bounds
cells, which is bounded by 81. -/
def rec_is_valid_path (g : Game) (endRow : Int) :
    Nat → List Cell → Option Bool
  | 0, _ => none
  | fuel + 1, l =>
    (innerLoop g endRow 82 l 0 0).bind fun r =>
      match r with
      | LoopRes.found => some true
      | LoopRes.finished l2 c2 =>
        if c2 = 0 then some false else rec_is_valid_path g endRow fuel l2

/-- Write value v at the anchor of fence layer fidx (1 = vertical,
2 = horizontal); place_fence only produces fidx 1 or 2. -/
def setFence (g : Game) (fidx : Nat) (c : Cell) (v : Int) : Game :=
  if fidx = 1 then
    Game.mk g.board0 (setCell g.board1 c.1 c.2 v) g.board2
      g.playerOneFences g.playerTwoFences g.firstPlayerTurn
  else
    Game.mk g.board0 g.board1 (setCell g.board2 c.1 c.2 v)
      g.playerOneFences g.playerTwoFences g.firstPlayerTurn

/-- QuoridorGame._is_valid_path: place the proposed fence, search for a
path from the opponent pawn of the placing player to the base row of
the placing player, then reset the proposed fence.  The returned state
is the state after the reset. -/
def is_valid_path (g : Game) (player : Int) (fidx : Nat) (coords : Cell) :
    Option (Bool × Game) :=
  (position (setFence g fidx coords 1).board0
      (if player = 1 then 2 else 1)).bind fun start =>
    (rec_is_valid_path (setFence g fidx coords 1)
        (if player = 1 then 0 else 8) 81 [start]).bind fun b =>
      some (b, setFence (setFence g fidx coords 1) fidx coords 0)

/-- The three values QuoridorGame.place_fence can return: True, False,
or the warning string breaks the fair play rule. -/
inductive PFOut where
  | tru : PFOut
  | fls : PFOut
  | fairPlay : PFOut
deriving DecidableEq

/-- Python truthiness of each place_fence return value: True and the
nonempty warning string are truthy, False is falsy. -/
def pyTruthy : PFOut → Bool
  | PFOut.tru => true
  | PFOut.fls => false
  | PFOut.fairPlay => true

/-- The fence orientation dispatch of place_fence: v maps to layer 1,
h to layer 2, anything else is rejected. -/
def fenceIndexOf (orient : String) : Option Nat :=
  if orient = "v" then some 1 else if orient = "h" then some 2 else none

/-- The fence-count decrement block of place_fence: player 1 and
player 2 each lose one fence, any other player value none. -/
def decBudget (player : Int) (g : Game) : Game :=
  if player = 1 then
    Game.mk g.board0 g.board1 g.board2
      (g.playerOneFences - 1) g.playerTwoFences g.firstPlayerTurn
  else if player = 2 then
    Game.mk g.board0 g.board1 g.board2
      g.playerOneFences (g.playerTwoFences - 1) g.firstPlayerTurn
  else g

/-- The turn-flag flip at the end of a successful action. -/
def flipTurn (g : Game) : Game :=
  Game.mk g.board0 g.board1 g.board2
    g.playerOneFences g.playerTwoFences (! g.firstPlayerTurn)

/-- QuoridorGame.place_fence: the returned pair is the Python return
value together with the state of the instance after the call. -/
def place_fence (g : Game) (player : Int) (orient : String) (coords : Cell) :
    Option (PFOut × Game) :=
  (player_may_move g player).bind fun pm =>
    if pm = false then some (PFOut.fls, g)
    else if player = 1 ∧ g.playerOneFences = 0 then some (PFOut.fls, g)
    else if player = 2 ∧ g.playerTwoFences = 0 then some (PFOut.fls, g)
    else
      (fenceIndexOf orient).elim (some (PFOut.fls, g)) fun fidx =>
        if fidx = 1 ∧ ¬ (1 ≤ coords.1 ∧ coords.1 ≤ 8 ∧ 0 ≤ coords.2 ∧ coords.2 ≤ 8) then
          some (PFOut.fls, g)
        else if fidx = 2 ∧ ¬ (0 ≤ coords.1 ∧ coords.1 ≤ 8 ∧ 1 ≤ coords.2 ∧ coords.2 ≤ 8) then
          some (PFOut.fls, g)
        else
          (gridGet (if fidx = 1 then g.board1 else g.board2)
              coords.1 coords.2).bind fun v =>
            if v = 1 then some (PFOut.fls, g)
            else
              (is_valid_path g player fidx coords).bind fun bg =>
                if bg.1 = false then some (PFOut.fairPlay, bg.2)
                else
                  some (PFOut.tru,
                    flipTurn (decBudget player (setFence bg.2 fidx coords 1)))

/-- Pawn layer with player 1 at (4,3) and player 2 at (4,4). -/
def pawns43_44 : Grid := setCell (setCell zeroGrid 4 3 1) 4 4 2

/-- State for the diagonal-jump analysis: pawns adjacent in column 4,
a horizontal fence at anchor (4,5), which blocks the edge between
(4,4) and (4,5), the edge behind the opponent; player 1 to move. -/
def gC1 : Game := Game.mk pawns43_44 zeroGrid (setCell zeroGrid 4 5 1) 10 10 true

/-- Same pawns, but the horizontal fence at anchor (4,4) instead: it
blocks the edge between (4,3) and (4,4), the edge between the pawns. -/
def gC1b : Game := Game.mk pawns43_44 zeroGrid (setCell zeroGrid 4 4 1) 10 10 true

/-- State for the fence-span analysis: initial pawns, a vertical fence
at anchor (3,5) and a horizontal fence at anchor (5,3). -/
def gC2 : Game := Game.mk initGame.board0
  (setCell zeroGrid 3 5 1) (setCell zeroGrid 5 3 1) 10 10 true

/-- State for the self-trapping analysis: player 1 pawn at (0,0),
player 2 pawn at (4,1), a horizontal fence at anchor (0,1) blocking the
edge between (0,0) and (0,1), player 1 to move with nine fences left. -/
def gC5 : Game := Game.mk (setCell (setCell zeroGrid 0 0 1) 4 1 2)
  zeroGrid (setCell zeroGrid 0 1 1) 9 10 true

/-- The state after gC5 commits a vertical fence at (1,0): player 1 is
now sealed inside the corner cell (0,0). -/
def gC5post : Game := Game.mk (setCell (setCell zeroGrid 0 0 1) 4 1 2)
  (setCell zeroGrid 1 0 1) (setCell zeroGrid 0 1 1) 8 10 false

/-- State where player 2 at (0,2) is sealed except through the edge to
(1,2): horizontal fences at (0,2) and (0,3) close the column-0 exits.
A vertical fence at (1,2) would strand player 2, breaking fair play. -/
def gSeal : Game := Game.mk (setCell (setCell zeroGrid 4 6 1) 0 2 2)
  zeroGrid (setCell (setCell zeroGrid 0 2 1) 0 3 1) 10 10 true

/-- State with player 1 at (0,4) and player 2 at (4,1); any far-away
fence passes the fair-play search quickly because player 2 is two steps
from row 0. -/
def gC7 : Game := Game.mk (setCell (setCell zeroGrid 0 4 1) 4 1 2)
  zeroGrid zeroGrid 10 10 true

/-- The state after gC7 commits a vertical fence at (8,8) for player 1. -/
def gC7post : Game := Game.mk (setCell (setCell zeroGrid 0 4 1) 4 1 2)
  (setCell zeroGrid 8 8 1) zeroGrid 9 10 false

/-- State with player 1 at (4,7) and player 2 at (4,1), used for a
fence placement by the unrecognized player value 3: _is_valid_path then
searches from the player 1 pawn towards row 8, which is one step away. -/
def gC9 : Game := Game.mk (setCell (setCell zeroGrid 4 7 1) 4 1 2)
  zeroGrid zeroGrid 10 10 true

/-- The state after gC9 commits a vertical fence at (5,5) for player
value 3: fence placed, both budgets untouched, turn flag flipped. -/
def gC9post : Game := Game.mk (setCell (setCell zeroGrid 4 7 1) 4 1 2)
  (setCell zeroGrid 5 5 1) zeroGrid 10 10 false

/-- State where player 1 has already won: pawn 1 on row 8 at (4,8),
pawn 2 at (0,4). -/
def gWin : Game := Game.mk (setCell (setCell zeroGrid 4 8 1) 0 4 2)
  zeroGrid zeroGrid 10 10 true

/-- A well-formed 9x9 board layer, as built by __init__. -/
abbrev WFGrid (g : Grid) : Prop := g.length = 9 ∧ ∀ col ∈ g, col.length = 9

/-- All three layers of a game are well-formed 9x9 grids. -/
abbrev WFGame (g : Game) : Prop := WFGrid g.board0 ∧ WFGrid g.board1 ∧ WFGrid g.board2

/-- A fence layer holding only the values 0 and 1, as the game only
ever writes those. -/
abbrev BoolGrid (g : Grid) : Prop := ∀ col ∈ g, ∀ v ∈ col, v = 0 ∨ v = 1

/-- A single unobstructed step between cells: the destination is on the
board, adjacent to the source, and not blocked per _move_blocked. -/
def stepOK (g : Game) (a b : Cell) : Prop :=
  inB b = true ∧ is_adjacent a b = true ∧ move_blocked g a b = some false

/-- Existence of an unobstructed path: the reflexive transitive closure
of single steps. -/
def SpecReach (g : Game) : Cell → Cell → Prop :=
  Relation.ReflTransGen (stepOK g)

/-- All members of a cell list are on the board. -/
def AllInB (l : List Cell) : Prop := ∀ x ∈ l, inB x = true

theorem pyIndex_nonneg (len : Nat) (i : Int) (h0 : 0 ≤ i) :
    pyIndex len i = i := by
  unfold pyIndex
  rw [if_neg (by omega)]

theorem pyGet_nonneg {α : Type} (l : List α) (i : Int) (h0 : 0 ≤ i) :
    pyGet l i = l.get? i.toNat := by
  unfold pyGet
  rw [pyIndex_nonneg _ _ h0, if_neg (by omega)]

theorem pyGet_mem {α : Type} {l : List α} {i : Int} {a : α}
    (h : pyGet l i = some a) : a ∈ l := by
  unfold pyGet at h
  split at h
  · exact absurd h (by simp)
  · exact List.get?_mem h

theorem gridGet_mem {g : Grid} {x y v : Int} (h : gridGet g x y = some v) :
    ∃ col ∈ g, v ∈ col := by
  unfold gridGet at h
  cases hc : pyGet g x with
  | none => rw [hc] at h; cases h
  | some col =>
    rw [hc, Option.some_bind] at h
    exact ⟨col, pyGet_mem hc, pyGet_mem h⟩

theorem boolGrid_val {g : Grid} (hb : BoolGrid g) {x y v : Int}
    (h : gridGet g x y = some v) : v = 0 ∨ v = 1 := by
  obtain ⟨col, hcol, hv⟩ := gridGet_mem h
  exact hb col hcol v hv

theorem gridGet_total {g : Grid} (hg : WFGrid g) {x y : Int}
    (hx0 : 0 ≤ x) (hx8 : x ≤ 8) (hy0 : 0 ≤ y) (hy8 : y ≤ 8) :
    ∃ v, gridGet g x y = some v := by
  obtain ⟨hlen, hcols⟩ := hg
  cases hcol : g.get? x.toNat with
  | none =>
    have := List.get?_eq_none.mp hcol
    omega
  | some col =>
    have hclen : col.length = 9 := hcols col (List.get?_mem hcol)
    cases hv : col.get? y.toNat with
    | none =>
      have := List.get?_eq_none.mp hv
      omega
    | some v =>
      refine ⟨v, ?_⟩
      unfold gridGet
      rw [pyGet_nonneg g x hx0, hcol, Option.some_bind,
        pyGet_nonneg col y hy0, hv]

theorem set_of_get? {α : Type} :
    ∀ (l : List α) (n : Nat) (a : α), l.get? n = some a → l.set n a = l
  | [], _, _, h => by cases h
  | x :: xs, 0, a, h => by
    simp only [List.get?] at h
    cases h
    rfl
  | x :: xs, n + 1, a, h => by
    simp only [List.get?] at h
    simp only [List.set]
    rw [set_of_get? xs n a h]

theorem length_setCell (g : Grid) (x y v : Int) :
    (setCell g x y v).length = g.length := by
  unfold setCell
  exact List.length_set ..

theorem WFGrid_setCell {g : Grid} (hg : WFGrid g) (x y v : Int) :
    WFGrid (setCell g x y v) := by
  obtain ⟨hlen, hcols⟩ := hg
  refine ⟨by rw [length_setCell, hlen], ?_⟩
  intro col hcol
  unfold setCell at hcol
  by_cases hx : x.toNat < g.length
  · rcases List.mem_or_eq_of_mem_set hcol with hmem | heq
    · exact hcols col hmem
    · subst heq
      cases hgx : g.get? x.toNat with
      | none =>
        exact absurd (List.get?_eq_none.mp hgx) (by omega)
      | some c =>
        have := hcols c (List.get?_mem hgx)
        simp [hgx, this]
  · rw [List.set_eq_of_length_le (by omega)] at hcol
    exact hcols col hcol

theorem BoolGrid_setCell {g : Grid} (hb : BoolGrid g) {v : Int}
    (hv : v = 0 ∨ v = 1) (x y : Int) : BoolGrid (setCell g x y v) := by
  intro col hcol w hw
  unfold setCell at hcol
  rcases List.mem_or_eq_of_mem_set hcol with hmem | heq
  · exact hb col hmem w hw
  · subst heq
    rcases List.mem_or_eq_of_mem_set hw with hmem2 | heq2
    · cases hx : g.get? x.toNat with
      | none => rw [hx] at hmem2; simp at hmem2
      | some c =>
        rw [hx] at hmem2
        exact hb c (List.get?_mem hx) w hmem2
    · subst heq2; exact hv

theorem BoolGrid_zeroGrid : BoolGrid zeroGrid := by decide

theorem setCell_restore {g : Grid} (hg : WFGrid g) {x y : Int}
    (hx0 : 0 ≤ x) (hy0 : 0 ≤ y)
    (hv : gridGet g x y = some 0) :
    setCell (setCell g x y 1) x y 0 = g := by
  unfold gridGet at hv
  rw [pyGet_nonneg g x hx0] at hv
  cases hcol : g.get? x.toNat with
  | none => rw [hcol] at hv; cases hv
  | some col =>
    rw [hcol, Option.some_bind, pyGet_nonneg col y hy0] at hv
    have hxlen : x.toNat < g.length := by
      by_contra hcon
      rw [List.get?_eq_none.mpr (by omega)] at hcol
      cases hcol
    unfold setCell
    rw [hcol]
    simp only [Option.getD_some]
    have h2 : (g.set x.toNat (col.set y.toNat 1)).get? x.toNat
        = some (col.set y.toNat 1) :=
      List.get?_set_eq_of_lt _ hxlen
    rw [h2]
    simp only [Option.getD_some]
    rw [List.set_set, List.set_set, set_of_get? col y.toNat 0 hv,
      set_of_get? g x.toNat col hcol]

theorem position_bounds {b0 : Grid} {p x y : Int}
    (h : position b0 p = some (x, y)) :
    0 ≤ x ∧ x ≤ 8 ∧ 0 ≤ y ∧ y ≤ 8 := by
  unfold position at h
  obtain ⟨c, hc, hfc⟩ := List.exists_of_findSome?_eq_some h
  have hc9 : c < 9 := List.mem_range.mp hc
  cases hcol : b0.get? c with
  | none => rw [hcol, Option.none_bind] at hfc; cases hfc
  | some col =>
    rw [hcol, Option.some_bind] at hfc
    split at hfc
    · obtain ⟨r, hr, hfr⟩ := List.exists_of_findSome?_eq_some hfc
      have hr9 : r < 9 := List.mem_range.mp hr
      cases hv : col.get? r with
      | none => rw [hv, Option.none_bind] at hfr; cases hfr
      | some v =>
        rw [hv, Option.some_bind] at hfr
        split at hfr
        · cases hfr
          refine ⟨by omega, by omega, by omega, by omega⟩
        · cases hfr
    · cases hfc

theorem addSpace_none (g : Game) (sp ns : Cell) : addSpace g sp none ns = none := rfl

theorem foldl_addSpace_none (g : Game) (sp : Cell) :
    ∀ ns : List Cell, ns.foldl (addSpace g sp) none = none := by
  intro ns
  induction ns with
  | nil => rfl
  | cons n rest ih => rw [List.foldl_cons, addSpace_none]; exact ih

theorem addSpace_step (g : Game) (sp ns : Cell) (l : List Cell) (c : Nat) :
    addSpace g sp (some (l, c)) ns = addSpace1 g sp l c ns := rfl

theorem addSpace_some {g : Game} {sp ns : Cell} {l : List Cell} {c : Nat}
    {l2 : List Cell} {c2 : Nat}
    (h : addSpace g sp (some (l, c)) ns = some (l2, c2)) :
    (l2 = l ∧ c2 = c) ∨
    (l2 = l ++ [ns] ∧ c2 = c + 1 ∧ inB ns = true ∧
      move_blocked g sp ns = some false ∧ ns ∉ l) := by
  rw [addSpace_step] at h
  unfold addSpace1 at h
  split at h
  · rename_i hb
    cases hmb : move_blocked g sp ns with
    | none => rw [hmb, Option.none_bind] at h; cases h
    | some b =>
      rw [hmb, Option.some_bind] at h
      cases b
      · rw [if_neg Bool.false_ne_true] at h
        by_cases hm : ns ∈ l
        · rw [if_pos hm] at h; left; cases h; exact ⟨rfl, rfl⟩
        · rw [if_neg hm] at h
          right
          cases h
          exact ⟨rfl, rfl, hb, rfl, hm⟩
      · rw [if_pos rfl] at h; left; cases h; exact ⟨rfl, rfl⟩
  · left; cases h; exact ⟨rfl, rfl⟩

theorem foldl_addSpace_spec {g : Game} {sp : Cell} :
    ∀ (ns l : List Cell) (c : Nat) (l2 : List Cell) (c2 : Nat),
    ns.foldl (addSpace g sp) (some (l, c)) = some (l2, c2) →
    (l ⊆ l2) ∧ (c ≤ c2) ∧ (l2.length + c = l.length + c2) ∧
    (l.Nodup → l2.Nodup) ∧ (AllInB l → AllInB l2) ∧
    (∀ x ∈ l2, x ∈ l ∨
      (x ∈ ns ∧ inB x = true ∧ move_blocked g sp x = some false)) := by
  intro ns
  induction ns with
  | nil =>
    intro l c l2 c2 h
    rw [List.foldl_nil] at h
    cases h
    refine ⟨fun x hx => hx, le_refl c, rfl, id, id, fun x hx => Or.inl hx⟩
  | cons n rest ih =>
    intro l c l2 c2 h
    rw [List.foldl_cons] at h
    cases hstep : addSpace g sp (some (l, c)) n with
    | none => rw [hstep, foldl_addSpace_none] at h; cases h
    | some acc1 =>
      obtain ⟨l1, c1⟩ := acc1
      rw [hstep] at h
      have hspec := ih l1 c1 l2 c2 h
      rcases addSpace_some hstep with ⟨hl, hc⟩ | ⟨hl, hc, hbn, hmb, hnm⟩
      · subst hl; subst hc
        refine ⟨hspec.1, hspec.2.1, hspec.2.2.1, hspec.2.2.2.1,
          hspec.2.2.2.2.1, fun x hx => ?_⟩
        rcases hspec.2.2.2.2.2 x hx with hxl | ⟨hxns, hxb, hxmb⟩
        · exact Or.inl hxl
        · exact Or.inr ⟨List.mem_cons_of_mem _ hxns, hxb, hxmb⟩
      · subst hl; subst hc
        have hsub : l ⊆ l ++ [n] := fun x hx => List.mem_append_left _ hx
        refine ⟨fun x hx => hspec.1 (hsub hx), ?_, ?_, ?_, ?_, fun x hx => ?_⟩
        · omega
        · have := hspec.2.2.1
          rw [List.length_append] at this
          simp only [List.length_singleton] at this
          omega
        · intro hnd
          apply hspec.2.2.2.1
          simp only [List.nodup_append, List.nodup_cons, List.not_mem_nil,
            not_false_iff, List.nodup_nil, and_true, true_and]
          refine ⟨hnd, ?_⟩
          intro a ha hmem
          simp only [List.mem_singleton] at hmem
          subst hmem
          exact hnm ha
        · intro hall
          apply hspec.2.2.2.2.1
          intro x hx
          rcases List.mem_append.mp hx with hxl | hxn
          · exact hall x hxl
          · simp only [List.mem_singleton] at hxn
            subst hxn
            exact hbn
        · rcases hspec.2.2.2.2.2 x hx with hxl | ⟨hxns, hxb, hxmb⟩
          · rcases List.mem_append.mp hxl with hxl2 | hxn
            · exact Or.inl hxl2
            · simp only [List.mem_singleton] at hxn
              subst hxn
              exact Or.inr ⟨List.mem_cons_self _ _, hbn, hmb⟩
          · exact Or.inr ⟨List.mem_cons_of_mem _ hxns, hxb, hxmb⟩

theorem move_blocked_total {g : Game} (hw : WFGame g) {sp ns : Cell}
    (hsp : inB sp = true) (hns : inB ns = true) (hmem : ns ∈ new_list sp) :
    ∃ b, move_blocked g sp ns = some b := by
  have hsp' : 0 ≤ sp.1 ∧ sp.1 ≤ 8 ∧ 0 ≤ sp.2 ∧ sp.2 ≤ 8 := by
    simpa [inB] using hsp
  have hns' : 0 ≤ ns.1 ∧ ns.1 ≤ 8 ∧ 0 ≤ ns.2 ∧ ns.2 ≤ 8 := by
    simpa [inB] using hns
  unfold move_blocked
  split
  · exact ⟨true, rfl⟩
  · simp only [new_list, List.mem_cons, List.not_mem_nil, or_false] at hmem
    rcases hmem with hup | hdown | hleft | hright
    · subst hup
      simp only [] at hns'
      split
      · split
        · rename_i h2
          exfalso
          simp only [] at h2
          omega
        · obtain ⟨v, hv⟩ := gridGet_total hw.2.2 hsp'.1 hsp'.2.1
            (by omega) (by omega : sp.2 + 1 ≤ 8)
          rw [hv]
          exact ⟨_, rfl⟩
      · rename_i h1
        exact absurd rfl h1
    · subst hdown
      simp only [] at hns'
      split
      · split
        · obtain ⟨v, hv⟩ := gridGet_total hw.2.2 hsp'.1 hsp'.2.1
            hsp'.2.2.1 hsp'.2.2.2
          rw [hv]
          exact ⟨_, rfl⟩
        · rename_i h2
          exfalso
          simp only [] at h2
          omega
      · rename_i h1
        exact absurd rfl h1
    · subst hleft
      simp only [] at hns'
      split
      · rename_i h1
        exfalso
        simp only [] at h1
        omega
      · split
        · obtain ⟨v, hv⟩ := gridGet_total hw.2.1 hsp'.1 hsp'.2.1
            hsp'.2.2.1 hsp'.2.2.2
          rw [hv]
          exact ⟨_, rfl⟩
        · rename_i h2
          exfalso
          simp only [] at h2
          omega
    · subst hright
      simp only [] at hns'
      split
      · rename_i h1
        exfalso
        simp only [] at h1
        omega
      · split
        · rename_i h2
          exfalso
          simp only [] at h2
          omega
        · obtain ⟨v, hv⟩ := gridGet_total hw.2.1 (by omega)
            (by omega : sp.1 + 1 ≤ 8) hsp'.2.2.1 hsp'.2.2.2
          rw [hv]
          exact ⟨_, rfl⟩

theorem foldl_addSpace_total {g : Game} (hw : WFGame g) {sp : Cell}
    (hsp : inB sp = true) :
    ∀ (ns : List Cell), (∀ n ∈ ns, n ∈ new_list sp) →
    ∀ (l : List Cell) (c : Nat),
    ∃ r, ns.foldl (addSpace g sp) (some (l, c)) = some r := by
  intro ns
  induction ns with
  | nil => exact fun _ l c => ⟨(l, c), rfl⟩
  | cons n rest ih =>
    intro hmem l c
    rw [List.foldl_cons]
    have hstep : ∃ acc1, addSpace g sp (some (l, c)) n = some acc1 := by
      rw [addSpace_step]
      unfold addSpace1
      split
      · rename_i hbn
        obtain ⟨b, hb⟩ := move_blocked_total hw hsp hbn
          (hmem n (List.mem_cons_self _ _))
        rw [hb, Option.some_bind]
        split
        · exact ⟨_, rfl⟩
        · split
          · exact ⟨_, rfl⟩
          · exact ⟨_, rfl⟩
      · exact ⟨_, rfl⟩
    obtain ⟨⟨l1, c1⟩, hstep⟩ := hstep
    rw [hstep]
    exact ih (fun m hm => hmem m (List.mem_cons_of_mem _ hm)) l1 c1

theorem nodup_length_le_81 {l : List Cell} (hn : l.Nodup) (hb : AllInB l) :
    l.length ≤ 81 := by
  classical
  have hsub : l.toFinset ⊆ Finset.Icc (0 : Int) 8 ×ˢ Finset.Icc (0 : Int) 8 := by
    intro x hx
    have hx' := hb x (List.mem_toFinset.mp hx)
    simp only [inB, decide_eq_true_eq] at hx'
    simp only [Finset.mem_product, Finset.mem_Icc]
    exact ⟨⟨hx'.1, hx'.2.1⟩, ⟨hx'.2.2.1, hx'.2.2.2⟩⟩
  have hcard := Finset.card_le_card hsub
  rw [List.toFinset_card_of_nodup hn] at hcard
  simpa [Finset.card_product, Int.card_Icc] using hcard

theorem new_list_adjacent {sp x : Cell} (h : x ∈ new_list sp) :
    is_adjacent sp x = true := by
  simp only [new_list, List.mem_cons, List.not_mem_nil, or_false] at h
  unfold is_adjacent adjacent_squares
  rcases h with h | h | h | h <;> subst h <;> simp

theorem innerLoop_succ_none {g : Game} {endRow : Int} {fuel : Nat}
    {l : List Cell} {i addc : Nat} (h : l.get? i = none) :
    innerLoop g endRow (fuel + 1) l i addc = some (LoopRes.finished l addc) := by
  simp only [innerLoop, h]

theorem innerLoop_succ_some {g : Game} {endRow : Int} {fuel : Nat}
    {l : List Cell} {i addc : Nat} {sp : Cell} (h : l.get? i = some sp) :
    innerLoop g endRow (fuel + 1) l i addc =
      (if sp.2 = endRow then some LoopRes.found
       else (tryAddAll g sp l addc).bind fun lc =>
         innerLoop g endRow fuel lc.1 (i + 1) lc.2) := by
  simp only [innerLoop, h]

theorem innerLoop_finished_spec {g : Game} {endRow : Int} :
    ∀ (fuel : Nat) (l : List Cell) (i addc : Nat) (l2 : List Cell) (c2 : Nat),
    innerLoop g endRow fuel l i addc = some (LoopRes.finished l2 c2) →
    l ⊆ l2 ∧ addc ≤ c2 ∧ l2.length + addc = l.length + c2 ∧
    (l.Nodup → l2.Nodup) ∧ (AllInB l → AllInB l2) := by
  intro fuel
  induction fuel with
  | zero =>
    intro l i addc l2 c2 h
    exact absurd h (by simp [innerLoop])
  | succ fuel ih =>
    intro l i addc l2 c2 h
    cases hget : l.get? i with
    | none =>
      rw [innerLoop_succ_none hget] at h
      cases h
      exact ⟨fun x hx => hx, le_refl _, rfl, id, id⟩
    | some sp =>
      rw [innerLoop_succ_some hget] at h
      by_cases hrow : sp.2 = endRow
      · rw [if_pos hrow] at h; cases h
      · rw [if_neg hrow] at h
        cases htry : tryAddAll g sp l addc with
        | none => rw [htry, Option.none_bind] at h; cases h
        | some acc =>
          obtain ⟨l1, c1⟩ := acc
          rw [htry, Option.some_bind] at h
          have h2 : innerLoop g endRow fuel l1 (i + 1) c1
              = some (LoopRes.finished l2 c2) := h
          unfold tryAddAll at htry
          have hspec := foldl_addSpace_spec _ _ _ _ _ htry
          have hrec := ih l1 (i + 1) c1 l2 c2 h2
          refine ⟨fun x hx => hrec.1 (hspec.1 hx), ?_, ?_,
            fun hnd => hrec.2.2.2.1 (hspec.2.2.2.1 hnd),
            fun hb => hrec.2.2.2.2 (hspec.2.2.2.2.1 hb)⟩
          · have e1 := hspec.2.1
            have e2 := hrec.2.1
            omega
          · have e1 := hspec.2.2.1
            have e2 := hrec.2.2.1
            omega

theorem innerLoop_sound {g : Game} {endRow : Int} {R : Cell → Prop}
    (hstep : ∀ a b, R a → b ∈ new_list a → inB b = true →
      move_blocked g a b = some false → R b) :
    ∀ (fuel : Nat) (l : List Cell) (i addc : Nat), (∀ x ∈ l, R x) →
    (innerLoop g endRow fuel l i addc = some LoopRes.found →
      ∃ cell, R cell ∧ cell.2 = endRow) ∧
    (∀ l2 c2, innerLoop g endRow fuel l i addc = some (LoopRes.finished l2 c2) →
      ∀ x ∈ l2, R x) := by
  intro fuel
  induction fuel with
  | zero =>
    intro l i addc hR
    constructor
    · intro h; exact absurd h (by simp [innerLoop])
    · intro l2 c2 h; exact absurd h (by simp [innerLoop])
  | succ fuel ih =>
    intro l i addc hR
    constructor
    · intro h
      cases hget : l.get? i with
      | none =>
        rw [innerLoop_succ_none hget] at h
        cases h
      | some sp =>
        rw [innerLoop_succ_some hget] at h
        by_cases hrow : sp.2 = endRow
        · exact ⟨sp, hR sp (List.get?_mem hget), hrow⟩
        · rw [if_neg hrow] at h
          cases htry : tryAddAll g sp l addc with
          | none => rw [htry, Option.none_bind] at h; cases h
          | some acc =>
            obtain ⟨l1, c1⟩ := acc
            rw [htry, Option.some_bind] at h
            have h2 : innerLoop g endRow fuel l1 (i + 1) c1
                = some LoopRes.found := h
            unfold tryAddAll at htry
            have hspec := foldl_addSpace_spec _ _ _ _ _ htry
            have hR1 : ∀ x ∈ l1, R x := by
              intro x hx
              rcases hspec.2.2.2.2.2 x hx with hxl | ⟨hxns, hxb, hxmb⟩
              · exact hR x hxl
              · exact hstep sp x (hR sp (List.get?_mem hget)) hxns hxb hxmb
            exact (ih l1 (i + 1) c1 hR1).1 h2
    · intro l2 c2 h
      cases hget : l.get? i with
      | none =>
        rw [innerLoop_succ_none hget] at h
        cases h
        exact hR
      | some sp =>
        rw [innerLoop_succ_some hget] at h
        by_cases hrow : sp.2 = endRow
        · rw [if_pos hrow] at h; cases h
        · rw [if_neg hrow] at h
          cases htry : tryAddAll g sp l addc with
          | none => rw [htry, Option.none_bind] at h; cases h
          | some acc =>
            obtain ⟨l1, c1⟩ := acc
            rw [htry, Option.some_bind] at h
            have h2 : innerLoop g endRow fuel l1 (i + 1) c1
                = some (LoopRes.finished l2 c2) := h
            unfold tryAddAll at htry
            have hspec := foldl_addSpace_spec _ _ _ _ _ htry
            have hR1 : ∀ x ∈ l1, R x := by
              intro x hx
              rcases hspec.2.2.2.2.2 x hx with hxl | ⟨hxns, hxb, hxmb⟩
              · exact hR x hxl
              · exact hstep sp x (hR sp (List.get?_mem hget)) hxns hxb hxmb
            exact (ih l1 (i + 1) c1 hR1).2 l2 c2 h2

theorem innerLoop_total {g : Game} {endRow : Int} (hw : WFGame g) :
    ∀ (fuel : Nat) (l : List Cell) (i addc : Nat),
    l.Nodup → AllInB l → i ≤ l.length → 82 ≤ fuel + i →
    ∃ r, innerLoop g endRow fuel l i addc = some r := by
  intro fuel
  induction fuel with
  | zero =>
    intro l i addc hnd hb hi hf
    exfalso
    have := nodup_length_le_81 hnd hb
    omega
  | succ fuel ih =>
    intro l i addc hnd hb hi hf
    cases hget : l.get? i with
    | none => exact ⟨_, innerLoop_succ_none hget⟩
    | some sp =>
      rw [innerLoop_succ_some hget]
      by_cases hrow : sp.2 = endRow
      · rw [if_pos hrow]; exact ⟨_, rfl⟩
      · rw [if_neg hrow]
        have hspB : inB sp = true := hb sp (List.get?_mem hget)
        obtain ⟨⟨l1, c1⟩, htry⟩ := foldl_addSpace_total hw hspB
          (new_list sp) (fun n hn => hn) l addc
        have htry2 : tryAddAll g sp l addc = some (l1, c1) := htry
        rw [htry2, Option.some_bind]
        have hspec := foldl_addSpace_spec _ _ _ _ _ htry
        have hlt : i < l.length := by
          by_contra hcon
          rw [List.get?_eq_none.mpr (by omega)] at hget
          cases hget
        have hle := hspec.2.1
        have hlen := hspec.2.2.1
        exact ih l1 (i + 1) c1 (hspec.2.2.2.1 hnd) (hspec.2.2.2.2.1 hb)
          (by omega) (by omega)

theorem rec_is_valid_path_total {g : Game} {endRow : Int} (hw : WFGame g) :
    ∀ (fuel : Nat) (l : List Cell), l.Nodup → AllInB l → 1 ≤ l.length →
    82 ≤ fuel + l.length →
    ∃ b, rec_is_valid_path g endRow fuel l = some b := by
  intro fuel
  induction fuel with
  | zero =>
    intro l hnd hb h1 hf
    exfalso
    have := nodup_length_le_81 hnd hb
    omega
  | succ fuel ih =>
    intro l hnd hb h1 hf
    simp only [rec_is_valid_path]
    obtain ⟨r, hr⟩ := innerLoop_total hw 82 l 0 0 hnd hb (by omega) (by omega)
    rw [hr, Option.some_bind]
    cases r with
    | found => exact ⟨_, rfl⟩
    | finished l2 c2 =>
      show ∃ b, (if c2 = 0 then some false
        else rec_is_valid_path g endRow fuel l2) = some b
      by_cases hc : c2 = 0
      · rw [if_pos hc]; exact ⟨_, rfl⟩
      · rw [if_neg hc]
        have hspec := innerLoop_finished_spec 82 l 0 0 l2 c2 hr
        have hlen := hspec.2.2.1
        exact ih l2 (hspec.2.2.2.1 hnd) (hspec.2.2.2.2 hb)
          (by omega) (by omega)

theorem rec_is_valid_path_sound {g : Game} {endRow : Int} {start : Cell} :
    ∀ (fuel : Nat) (l : List Cell), (∀ x ∈ l, SpecReach g start x) →
    rec_is_valid_path g endRow fuel l = some true →
    ∃ cell, SpecReach g start cell ∧ cell.2 = endRow := by
  have hstep : ∀ a b, SpecReach g start a → b ∈ new_list a → inB b = true →
      move_blocked g a b = some false → SpecReach g start b :=
    fun a b hra hmem hb hmb =>
      Relation.ReflTransGen.tail hra ⟨hb, new_list_adjacent hmem, hmb⟩
  intro fuel
  induction fuel with
  | zero =>
    intro l hR h
    exact absurd h (by simp [rec_is_valid_path])
  | succ fuel ih =>
    intro l hR h
    simp only [rec_is_valid_path] at h
    cases hr : innerLoop g endRow 82 l 0 0 with
    | none => rw [hr, Option.none_bind] at h; cases h
    | some r =>
      rw [hr, Option.some_bind] at h
      cases r with
      | found => exact (innerLoop_sound hstep 82 l 0 0 hR).1 hr
      | finished l2 c2 =>
        have h2 : (if c2 = 0 then some false
            else rec_is_valid_path g endRow fuel l2) = some true := h
        by_cases hc : c2 = 0
        · rw [if_pos hc] at h2; cases h2
        · rw [if_neg hc] at h2
          exact ih l2 ((innerLoop_sound hstep 82 l 0 0 hR).2 l2 c2 hr) h2

theorem setFence_fields (g : Game) (fidx : Nat) (c : Cell) (v : Int) :
    (setFence g fidx c v).board0 = g.board0 ∧
    (setFence g fidx c v).playerOneFences = g.playerOneFences ∧
    (setFence g fidx c v).playerTwoFences = g.playerTwoFences ∧
    (setFence g fidx c v).firstPlayerTurn = g.firstPlayerTurn := by
  unfold setFence
  split <;> exact ⟨rfl, rfl, rfl, rfl⟩

theorem WFGame_setFence {g : Game} (hw : WFGame g) (fidx : Nat) (c : Cell)
    (v : Int) : WFGame (setFence g fidx c v) := by
  unfold setFence
  split
  · exact ⟨hw.1, WFGrid_setCell hw.2.1 _ _ _, hw.2.2⟩
  · exact ⟨hw.1, hw.2.1, WFGrid_setCell hw.2.2 _ _ _⟩

theorem setFence_restore {g : Game} {fidx : Nat} {c : Cell}
    (hf : fidx = 1 ∨ fidx = 2)
    (hw1 : WFGrid g.board1) (hw2 : WFGrid g.board2)
    (hx0 : 0 ≤ c.1) (hy0 : 0 ≤ c.2)
    (hv : gridGet (if fidx = 1 then g.board1 else g.board2) c.1 c.2 = some 0) :
    setFence (setFence g fidx c 1) fidx c 0 = g := by
  rcases hf with hf | hf <;> subst hf
  · rw [if_pos rfl] at hv
    show Game.mk g.board0 (setCell (setCell g.board1 c.1 c.2 1) c.1 c.2 0)
      g.board2 g.playerOneFences g.playerTwoFences g.firstPlayerTurn = g
    rw [setCell_restore hw1 hx0 hy0 hv]
  · rw [if_neg (by omega)] at hv
    show Game.mk g.board0 g.board1
      (setCell (setCell g.board2 c.1 c.2 1) c.1 c.2 0)
      g.playerOneFences g.playerTwoFences g.firstPlayerTurn = g
    rw [setCell_restore hw2 hx0 hy0 hv]

theorem is_valid_path_inv {g : Game} {p : Int} {fidx : Nat} {c : Cell}
    {b : Bool} {gr : Game}
    (h : is_valid_path g p fidx c = some (b, gr)) :
    gr = setFence (setFence g fidx c 1) fidx c 0 ∧
    ∃ start,
      position (setFence g fidx c 1).board0
        (if p = 1 then 2 else 1) = some start ∧
      rec_is_valid_path (setFence g fidx c 1)
        (if p = 1 then 0 else 8) 81 [start] = some b := by
  unfold is_valid_path at h
  cases hpos : position (setFence g fidx c 1).board0
      (if p = 1 then 2 else 1) with
  | none => rw [hpos, Option.none_bind] at h; cases h
  | some start =>
    simp only [hpos, Option.some_bind] at h
    cases hrec : rec_is_valid_path (setFence g fidx c 1)
        (if p = 1 then 0 else 8) 81 [start] with
    | none => rw [hrec, Option.none_bind] at h; cases h
    | some b2 =>
      simp only [hrec, Option.some_bind] at h
      cases h
      exact ⟨rfl, start, rfl, hrec⟩

theorem move_pawn_inv {g : Game} {p : Int} {d : Cell} {b : Bool} {g2 : Game}
    (h : move_pawn g p d = some (b, g2)) :
    (b = false ∧ g2 = g) ∨
    (b = true ∧ g2.board1 = g.board1 ∧ g2.board2 = g.board2 ∧
      g2.playerOneFences = g.playerOneFences ∧
      g2.playerTwoFences = g.playerTwoFences ∧
      g2.firstPlayerTurn = (! g.firstPlayerTurn)) := by
  unfold move_pawn at h
  cases hpm : player_may_move g p with
  | none => rw [hpm, Option.none_bind] at h; cases h
  | some pm =>
    simp only [hpm, Option.some_bind] at h
    by_cases hpmf : pm = false
    · rw [if_pos hpmf] at h; cases h; exact Or.inl ⟨rfl, rfl⟩
    · rw [if_neg hpmf] at h
      cases hlm : is_legal_move g p d with
      | none => rw [hlm, Option.none_bind] at h; cases h
      | some ok =>
        simp only [hlm, Option.some_bind] at h
        by_cases hokf : ok = false
        · rw [if_pos hokf] at h; cases h; exact Or.inl ⟨rfl, rfl⟩
        · rw [if_neg hokf] at h
          cases hpos : position g.board0 p with
          | none => rw [hpos, Option.none_bind] at h; cases h
          | some pos =>
            simp only [hpos, Option.some_bind] at h
            cases h
            exact Or.inr ⟨rfl, rfl, rfl, rfl, rfl, rfl⟩

theorem place_fence_inv {g : Game} {p : Int} {orient : String} {c : Cell}
    {out : PFOut} {g2 : Game}
    (h : place_fence g p orient c = some (out, g2)) :
    (out = PFOut.fls ∧ g2 = g) ∨
    (∃ fidx b gr,
      fenceIndexOf orient = some fidx ∧
      player_may_move g p = some true ∧
      ¬ (p = 1 ∧ g.playerOneFences = 0) ∧
      ¬ (p = 2 ∧ g.playerTwoFences = 0) ∧
      (fidx = 1 ∨ fidx = 2) ∧
      (fidx = 1 → 1 ≤ c.1 ∧ c.1 ≤ 8 ∧ 0 ≤ c.2 ∧ c.2 ≤ 8) ∧
      (fidx = 2 → 0 ≤ c.1 ∧ c.1 ≤ 8 ∧ 1 ≤ c.2 ∧ c.2 ≤ 8) ∧
      (∃ v, gridGet (if fidx = 1 then g.board1 else g.board2) c.1 c.2
          = some v ∧ v ≠ 1) ∧
      is_valid_path g p fidx c = some (b, gr) ∧
      gr = setFence (setFence g fidx c 1) fidx c 0 ∧
      ((b = false ∧ out = PFOut.fairPlay ∧ g2 = gr) ∨
       (b = true ∧ out = PFOut.tru ∧
         g2 = flipTurn (decBudget p (setFence gr fidx c 1))))) := by
  unfold place_fence at h
  cases hpm : player_may_move g p with
  | none => rw [hpm, Option.none_bind] at h; cases h
  | some pm =>
    simp only [hpm, Option.some_bind] at h
    by_cases hpmf : pm = false
    · rw [if_pos hpmf] at h; cases h; exact Or.inl ⟨rfl, rfl⟩
    · rw [if_neg hpmf] at h
      have hpmt : pm = true := by
        cases pm
        · exact absurd rfl hpmf
        · rfl
      subst hpmt
      by_cases hb1 : p = 1 ∧ g.playerOneFences = 0
      · rw [if_pos hb1] at h; cases h; exact Or.inl ⟨rfl, rfl⟩
      · rw [if_neg hb1] at h
        by_cases hb2 : p = 2 ∧ g.playerTwoFences = 0
        · rw [if_pos hb2] at h; cases h; exact Or.inl ⟨rfl, rfl⟩
        · rw [if_neg hb2] at h
          cases hfo : fenceIndexOf orient with
          | none =>
            rw [hfo] at h
            simp only [Option.elim_none] at h
            cases h
            exact Or.inl ⟨rfl, rfl⟩
          | some fidx =>
            simp only [hfo, Option.elim_some] at h
            have hfidx : fidx = 1 ∨ fidx = 2 := by
              unfold fenceIndexOf at hfo
              by_cases hv : orient = "v"
              · rw [if_pos hv] at hfo; cases hfo; exact Or.inl rfl
              · rw [if_neg hv] at hfo
                by_cases hh : orient = "h"
                · rw [if_pos hh] at hfo; cases hfo; exact Or.inr rfl
                · rw [if_neg hh] at hfo; cases hfo
            by_cases hr1 : fidx = 1 ∧
                ¬ (1 ≤ c.1 ∧ c.1 ≤ 8 ∧ 0 ≤ c.2 ∧ c.2 ≤ 8)
            · rw [if_pos hr1] at h; cases h; exact Or.inl ⟨rfl, rfl⟩
            · rw [if_neg hr1] at h
              by_cases hr2 : fidx = 2 ∧
                  ¬ (0 ≤ c.1 ∧ c.1 ≤ 8 ∧ 1 ≤ c.2 ∧ c.2 ≤ 8)
              · rw [if_pos hr2] at h; cases h; exact Or.inl ⟨rfl, rfl⟩
              · rw [if_neg hr2] at h
                cases hgv : gridGet (if fidx = 1 then g.board1 else g.board2)
                    c.1 c.2 with
                | none => rw [hgv, Option.none_bind] at h; cases h
                | some v =>
                  simp only [hgv, Option.some_bind] at h
                  by_cases hv1 : v = 1
                  · rw [if_pos hv1] at h; cases h; exact Or.inl ⟨rfl, rfl⟩
                  · rw [if_neg hv1] at h
                    cases hivp : is_valid_path g p fidx c with
                    | none => rw [hivp, Option.none_bind] at h; cases h
                    | some bg =>
                      obtain ⟨b, gr⟩ := bg
                      simp only [hivp, Option.some_bind] at h
                      have hrest := is_valid_path_inv hivp
                      refine Or.inr ⟨fidx, b, gr, rfl, rfl, hb1, hb2, hfidx,
                        ?_, ?_, ⟨v, hgv, hv1⟩, hivp, hrest.1, ?_⟩
                      · intro hf1
                        rcases not_and_or.mp hr1 with hc | hc
                        · exact absurd hf1 hc
                        · exact not_not.mp hc
                      · intro hf2
                        rcases not_and_or.mp hr2 with hc | hc
                        · exact absurd hf2 hc
                        · exact not_not.mp hc
                      · by_cases hbf : b = false
                        · rw [if_pos hbf] at h
                          cases h
                          exact Or.inl ⟨hbf, rfl, rfl⟩
                        · rw [if_neg hbf] at h
                          cases h
                          have hbt : b = true := by
                            cases b
                            · exact absurd rfl hbf
                            · rfl
                          exact Or.inr ⟨hbt, rfl, rfl⟩

theorem gridGet_setCell_same {g : Grid} (hg : WFGrid g) {x y : Int}
    (hx0 : 0 ≤ x) (hx8 : x ≤ 8) (hy0 : 0 ≤ y) (hy8 : y ≤ 8) (v : Int) :
    gridGet (setCell g x y v) x y = some v := by
  obtain ⟨hlen, hcols⟩ := hg
  cases hcol : g.get? x.toNat with
  | none =>
    have := List.get?_eq_none.mp hcol
    omega
  | some col =>
    have hclen : col.length = 9 := hcols col (List.get?_mem hcol)
    unfold gridGet setCell
    rw [pyGet_nonneg _ _ hx0]
    have h1 : (g.set x.toNat ((g.get? x.toNat |>.getD []).set y.toNat v)).get?
        x.toNat = some ((g.get? x.toNat |>.getD []).set y.toNat v) :=
      List.get?_set_eq_of_lt _ (by omega)
    rw [h1, Option.some_bind, hcol, Option.getD_some,
      pyGet_nonneg _ _ hy0]
    have h2 : (col.set y.toNat v).get? y.toNat = some v :=
      List.get?_set_eq_of_lt _ (by omega)
    rw [h2]

theorem move_blocked_leftward (g : Game) (x y : Int)
    (hpawn : position g.board0 (turnOpponent g) ≠ some (x - 1, y)) :
    move_blocked g (x, y) (x - 1, y)
      = (gridGet g.board1 x y).map (fun v => decide (v ≠ 0)) := by
  unfold move_blocked
  rw [if_neg hpawn,
    if_neg (show ¬ ((x, y).1 = (x - 1, y).1) from by simp; omega),
    if_pos (show ((x - 1, y).1 < (x, y).1) from by simp)]

theorem move_blocked_rightward (g : Game) (x y : Int)
    (hpawn : position g.board0 (turnOpponent g) ≠ some (x, y)) :
    move_blocked g (x - 1, y) (x, y)
      = (gridGet g.board1 (x - 1 + 1) y).map (fun v => decide (v ≠ 0)) := by
  unfold move_blocked
  rw [if_neg hpawn,
    if_neg (show ¬ ((x - 1, y).1 = (x, y).1) from by simp),
    if_neg (show ¬ ((x, y).1 < (x - 1, y).1) from by simp)]

theorem move_blocked_upward (g : Game) (x y : Int)
    (hpawn : position g.board0 (turnOpponent g) ≠ some (x, y - 1)) :
    move_blocked g (x, y) (x, y - 1)
      = (gridGet g.board2 x y).map (fun v => decide (v ≠ 0)) := by
  unfold move_blocked
  rw [if_neg hpawn,
    if_pos (show ((x, y).1 = (x, y - 1).1) from rfl),
    if_pos (show ((x, y - 1).2 < (x, y).2) from by simp)]

theorem move_blocked_downward (g : Game) (x y : Int)
    (hpawn : position g.board0 (turnOpponent g) ≠ some (x, y)) :
    move_blocked g (x, y - 1) (x, y)
      = (gridGet g.board2 x (y - 1 + 1)).map (fun v => decide (v ≠ 0)) := by
  unfold move_blocked
  rw [if_neg hpawn,
    if_pos (show ((x, y - 1).1 = (x, y).1) from rfl),
    if_neg (show ¬ ((x, y).2 < (x, y - 1).2) from by simp)]

theorem map_blocked_iff {gr : Grid} (hw : WFGrid gr) (hb : BoolGrid gr)
    {x y : Int} (hx0 : 0 ≤ x) (hx8 : x ≤ 8) (hy0 : 0 ≤ y) (hy8 : y ≤ 8) :
    ((gridGet gr x y).map (fun v => decide (v ≠ 0)) = some true ↔
      gridGet gr x y = some 1) := by
  obtain ⟨v, hv⟩ := gridGet_total hw hx0 hx8 hy0 hy8
  rcases boolGrid_val hb hv with h0 | h1
  · subst h0
    rw [hv]
    simp
  · subst h1
    rw [hv]
    simp

theorem setFence_p1 (g : Game) (fidx : Nat) (c : Cell) (v : Int) :
    (setFence g fidx c v).playerOneFences = g.playerOneFences :=
  (setFence_fields g fidx c v).2.1

theorem setFence_p2 (g : Game) (fidx : Nat) (c : Cell) (v : Int) :
    (setFence g fidx c v).playerTwoFences = g.playerTwoFences :=
  (setFence_fields g fidx c v).2.2.1

theorem setFence_turn (g : Game) (fidx : Nat) (c : Cell) (v : Int) :
    (setFence g fidx c v).firstPlayerTurn = g.firstPlayerTurn :=
  (setFence_fields g fidx c v).2.2.2

theorem flipTurn_p1 (g : Game) :
    (flipTurn g).playerOneFences = g.playerOneFences := rfl

theorem flipTurn_p2 (g : Game) :
    (flipTurn g).playerTwoFences = g.playerTwoFences := rfl

theorem flipTurn_turn (g : Game) :
    (flipTurn g).firstPlayerTurn = ! g.firstPlayerTurn := rfl

theorem decBudget_one (g : Game) :
    (decBudget 1 g).playerOneFences = g.playerOneFences - 1 ∧
    (decBudget 1 g).playerTwoFences = g.playerTwoFences := by
  unfold decBudget
  rw [if_pos rfl]
  exact ⟨rfl, rfl⟩

theorem decBudget_two (g : Game) :
    (decBudget 2 g).playerTwoFences = g.playerTwoFences - 1 ∧
    (decBudget 2 g).playerOneFences = g.playerOneFences := by
  unfold decBudget
  rw [if_neg (by omega), if_pos rfl]
  exact ⟨rfl, rfl⟩

theorem decBudget_other {p : Int} (g : Game) (h1 : p ≠ 1) (h2 : p ≠ 2) :
    decBudget p g = g := by
  unfold decBudget
  rw [if_neg h1, if_neg h2]

theorem flipTurn_boards (g : Game) :
    (flipTurn g).board1 = g.board1 ∧ (flipTurn g).board2 = g.board2 :=
  ⟨rfl, rfl⟩

theorem decBudget_boards (p : Int) (g : Game) :
    (decBudget p g).board1 = g.board1 ∧ (decBudget p g).board2 = g.board2 := by
  unfold decBudget
  split
  · exact ⟨rfl, rfl⟩
  · split
    · exact ⟨rfl, rfl⟩
    · exact ⟨rfl, rfl⟩

theorem decBudget_turn (p : Int) (g : Game) :
    (decBudget p g).firstPlayerTurn = g.firstPlayerTurn := by
  unfold decBudget
  split
  · rfl
  · split
    · rfl
    · rfl

theorem gr_budgets {g : Game} {fidx : Nat} {c : Cell} :
    (setFence (setFence g fidx c 1) fidx c 0).playerOneFences
      = g.playerOneFences ∧
    (setFence (setFence g fidx c 1) fidx c 0).playerTwoFences
      = g.playerTwoFences ∧
    (setFence (setFence g fidx c 1) fidx c 0).firstPlayerTurn
      = g.firstPlayerTurn := by
  refine ⟨?_, ?_, ?_⟩
  · rw [setFence_p1, setFence_p1]
  · rw [setFence_p2, setFence_p2]
  · rw [setFence_turn, setFence_turn]

theorem fairPlay_restore {g : Game} {fidx : Nat} {c : Cell}
    (hw : WFGame g) (hb1 : BoolGrid g.board1) (hb2 : BoolGrid g.board2)
    (hf : fidx = 1 ∨ fidx = 2) (hx0 : 0 ≤ c.1) (hy0 : 0 ≤ c.2)
    (hocc : ∃ v, gridGet (if fidx = 1 then g.board1 else g.board2) c.1 c.2
      = some v ∧ v ≠ 1) :
    setFence (setFence g fidx c 1) fidx c 0 = g := by
  obtain ⟨v, hv, hvne⟩ := hocc
  have hv0 : v = 0 := by
    have hv2 := hv
    rcases hf with hf | hf <;> subst hf
    · rw [if_pos rfl] at hv2
      rcases boolGrid_val hb1 hv2 with h | h
      · exact h
      · exact absurd h hvne
    · rw [if_neg (by omega)] at hv2
      rcases boolGrid_val hb2 hv2 with h | h
      · exact h
      · exact absurd h hvne
  subst hv0
  exact setFence_restore hf hw.2.1 hw.2.2 hx0 hy0 hv

theorem bounds_of_inv {fidx : Nat} {c : Cell} (hf : fidx = 1 ∨ fidx = 2)
    (hr1 : fidx = 1 → 1 ≤ c.1 ∧ c.1 ≤ 8 ∧ 0 ≤ c.2 ∧ c.2 ≤ 8)
    (hr2 : fidx = 2 → 0 ≤ c.1 ∧ c.1 ≤ 8 ∧ 1 ≤ c.2 ∧ c.2 ≤ 8) :
    0 ≤ c.1 ∧ c.1 ≤ 8 ∧ 0 ≤ c.2 ∧ c.2 ≤ 8 := by
  rcases hf with hf | hf
  · have := hr1 hf
    refine ⟨by omega, by omega, by omega, by omega⟩
  · have := hr2 hf
    refine ⟨by omega, by omega, by omega, by omega⟩

/-- Claim C1.  The source contradicts its own rule here: with pawns
adjacent in one column, player 1 at (4,3), player 2 at (4,4), and a
horizontal fence on the edge behind the opponent (anchor (4,5)), the
spec and the module header make the diagonal jump to (5,4) legal: the
edge between the pawns is clear (board2 anchor (4,4) is 0), the edge
behind the opponent is fence-blocked (anchor (4,5) is 1), and the edge
from the opponent to (5,4) is clear (board1 anchor (5,4) is 0).  The
code instead requires a horizontal fence on the edge BETWEEN the pawns:
it rejects this position, and it accepts the diagonal jump in gC1b,
where the only fence sits between the pawns (anchor (4,4)), a position
the spec rules illegal. -/
theorem C1_diagonal_jump_code_eval :
    gridGet gC1.board2 4 4 = some 0 ∧
    gridGet gC1.board2 4 5 = some 1 ∧
    gridGet gC1.board1 5 4 = some 0 ∧
    is_legal_move gC1 1 (5, 4) = some false ∧
    is_legal_move gC1 1 (3, 4) = some false ∧
    move_pawn gC1 1 (5, 4) = some (false, gC1) ∧
    gridGet gC1b.board2 4 4 = some 1 ∧
    gridGet gC1b.board2 4 5 = some 0 ∧
    is_legal_move gC1b 1 (5, 4) = some true := by decide

/-- Claim C2, counterexample.  A vertical fence at anchor (3,5) blocks
the horizontal step between columns 2 and 3 at row 5 only: at row 4 the
step is NOT blocked, although the claim says the fence spans rows 4 and
5.  Symmetrically, a horizontal fence at anchor (5,3) blocks the
vertical step between rows 2 and 3 at column 5 only, not at column 4. -/
theorem C2_fence_span_counterexample :
    gridGet gC2.board1 3 5 = some 1 ∧
    move_blocked gC2 (3, 5) (2, 5) = some true ∧
    move_blocked gC2 (3, 4) (2, 4) = some false ∧
    gridGet gC2.board2 5 3 = some 1 ∧
    move_blocked gC2 (5, 3) (5, 2) = some true ∧
    move_blocked gC2 (4, 3) (4, 2) = some false := by decide

/-- Claim C2, amended.  Each fence governs exactly one cell edge: for a
step not onto the turn-opponent pawn, the horizontal step between
columns a-1 and a at row b (in either direction) is blocked exactly
when the vertical-fence anchor (a,b) is set, and the vertical step
between rows b-1 and b at column a is blocked exactly when the
horizontal-fence anchor (a,b) is set. -/
theorem C2_fence_single_edge (g : Game) (a b : Int) (hw : WFGame g)
    (hb1 : BoolGrid g.board1) (hb2 : BoolGrid g.board2) :
    (1 ≤ a → a ≤ 8 → 0 ≤ b → b ≤ 8 →
      (position g.board0 (turnOpponent g) ≠ some (a - 1, b) →
        (move_blocked g (a, b) (a - 1, b) = some true ↔
          gridGet g.board1 a b = some 1)) ∧
      (position g.board0 (turnOpponent g) ≠ some (a, b) →
        (move_blocked g (a - 1, b) (a, b) = some true ↔
          gridGet g.board1 a b = some 1))) ∧
    (0 ≤ a → a ≤ 8 → 1 ≤ b → b ≤ 8 →
      (position g.board0 (turnOpponent g) ≠ some (a, b - 1) →
        (move_blocked g (a, b) (a, b - 1) = some true ↔
          gridGet g.board2 a b = some 1)) ∧
      (position g.board0 (turnOpponent g) ≠ some (a, b) →
        (move_blocked g (a, b - 1) (a, b) = some true ↔
          gridGet g.board2 a b = some 1))) := by
  constructor
  · intro ha1 ha8 hb0 hb8
    constructor
    · intro hpawn
      rw [move_blocked_leftward g a b hpawn]
      exact map_blocked_iff hw.2.1 hb1 (by omega) ha8 hb0 hb8
    · intro hpawn
      rw [move_blocked_rightward g a b hpawn]
      have : a - 1 + 1 = a := by omega
      rw [this]
      exact map_blocked_iff hw.2.1 hb1 (by omega) ha8 hb0 hb8
  · intro ha0 ha8 hb1' hb8
    constructor
    · intro hpawn
      rw [move_blocked_upward g a b hpawn]
      exact map_blocked_iff hw.2.2 hb2 ha0 ha8 (by omega) hb8
    · intro hpawn
      rw [move_blocked_downward g a b hpawn]
      have : b - 1 + 1 = b := by omega
      rw [this]
      exact map_blocked_iff hw.2.2 hb2 ha0 ha8 (by omega) hb8

theorem C2_witness : move_blocked gC2 (3, 5) ((3 : Int) - 1, 5) = some true :=
  (((C2_fence_single_edge gC2 3 5 (by decide) (by decide) (by decide)).1
    (by omega) (by omega) (by omega) (by omega)).1 (by decide)).mpr (by decide)

/-- Claim C3.  move_pawn does not return a defined outcome on every
input: called with player 3 on the initial board, _player_may_move lets
the unknown player through, _position(3) returns None, and
_is_adjacent(None, ...) raises TypeError, modelled by the none result.
The docstring of move_pawn promises False for a wrong player instead. -/
theorem C3_unknown_player_crash :
    move_pawn initGame 3 (4, 1) = none ∧
    player_may_move initGame 3 = some true ∧
    position initGame.board0 3 = none := by decide

/-- Claim C4.  Every rejected call leaves the state exactly as before:
a move_pawn call returning False returns the unchanged state, a
place_fence call returning False or the fair-play warning string
returns the unchanged state, and _is_valid_path always removes the
provisional fence again (whether its search succeeds or fails), so the
state it returns equals the state it was given. -/
theorem C4_rejection_preserves_state (g : Game) (hw : WFGame g)
    (hb1 : BoolGrid g.board1) (hb2 : BoolGrid g.board2) :
    (∀ p d g2, move_pawn g p d = some (false, g2) → g2 = g) ∧
    (∀ p orient c out g2, place_fence g p orient c = some (out, g2) →
      out ≠ PFOut.tru → g2 = g) ∧
    (∀ p fidx c b gr, (fidx = 1 ∨ fidx = 2) → 0 ≤ c.1 → 0 ≤ c.2 →
      (∃ v, gridGet (if fidx = 1 then g.board1 else g.board2) c.1 c.2
        = some v ∧ v ≠ 1) →
      is_valid_path g p fidx c = some (b, gr) → gr = g) := by
  refine ⟨?_, ?_, ?_⟩
  · intro p d g2 h
    rcases move_pawn_inv h with ⟨_, hg⟩ | ⟨hb, _⟩
    · exact hg
    · cases hb
  · intro p orient c out g2 h hout
    rcases place_fence_inv h with ⟨_, hg⟩ |
      ⟨fidx, b, gr, _, _, _, _, hfx, hr1, hr2, hocc, _, hgr, hcase⟩
    · exact hg
    · obtain ⟨hx0, _, hy0, _⟩ := bounds_of_inv hfx hr1 hr2
      rcases hcase with ⟨_, _, hg2⟩ | ⟨_, houtt, _⟩
      · subst hg2
        rw [hgr]
        exact fairPlay_restore hw hb1 hb2 hfx hx0 hy0 hocc
      · exact absurd houtt hout
  · intro p fidx c b gr hfx hx0 hy0 hocc h
    rw [(is_valid_path_inv h).1]
    exact fairPlay_restore hw hb1 hb2 hfx hx0 hy0 hocc

theorem C4_witness : gSeal = gSeal ∧ initGame = initGame :=
  ⟨(C4_rejection_preserves_state gSeal (by decide) (by decide)
      (by decide)).2.1 1 "v" (1, 2) PFOut.fairPlay gSeal (by decide)
      (by decide),
   (C4_rejection_preserves_state initGame (by decide) (by decide)
      (by decide)).1 2 (4, 7) initGame (by decide)⟩

/-- Claim C6.  is_winner(1) is True exactly when the player 1 pawn is
on row 8, is_winner(2) exactly when the player 2 pawn is on row 0; once
either holds, every move_pawn and place_fence call by any player
returns False with the state unchanged. -/
theorem C6_win_condition (g : Game) (x1 y1 x2 y2 : Int)
    (h1 : position g.board0 1 = some (x1, y1))
    (h2 : position g.board0 2 = some (x2, y2)) :
    (is_winner g 1 = some true ↔ y1 = 8) ∧
    (is_winner g 2 = some true ↔ y2 = 0) ∧
    ((y1 = 8 ∨ y2 = 0) →
      (∀ p d, move_pawn g p d = some (false, g)) ∧
      (∀ p orient c, place_fence g p orient c = some (PFOut.fls, g))) := by
  have hw1 : is_winner g 1 = some (decide (y1 = 8)) := by
    unfold is_winner
    rw [if_pos rfl, h1]
    rfl
  have hw2 : is_winner g 2 = some (decide (y2 = 0)) := by
    unfold is_winner
    rw [if_neg (by omega), if_pos rfl, h2]
    rfl
  have hpm : (y1 = 8 ∨ y2 = 0) → ∀ p, player_may_move g p = some false := by
    intro hwin p
    unfold player_may_move
    rcases hwin with hy | hy
    · simp [hw1, hy]
    · by_cases hy1 : y1 = 8
      · simp [hw1, hy1]
      · simp [hw1, hw2, hy1, hy]
  refine ⟨by rw [hw1]; simp, by rw [hw2]; simp, fun hwin => ⟨?_, ?_⟩⟩
  · intro p d
    unfold move_pawn
    rw [hpm hwin p]
    rfl
  · intro p orient c
    unfold place_fence
    rw [hpm hwin p]
    rfl

theorem C6_witness :
    is_winner gWin 1 = some true ∧
    move_pawn gWin 1 (4, 7) = some (false, gWin) ∧
    place_fence gWin 2 "v" (1, 1) = some (PFOut.fls, gWin) := by
  have h := C6_win_condition gWin 4 8 0 4 (by decide) (by decide)
  exact ⟨h.1.mpr rfl, (h.2.2 (Or.inl rfl)).1 1 (4, 7),
    (h.2.2 (Or.inl rfl)).2 2 "v" (1, 1)⟩

theorem gC5post_no_step : ∀ b : Cell, ¬ stepOK gC5post (0, 0) b := by
  rintro b ⟨hb, hadj, hmb⟩
  unfold is_adjacent at hadj
  have hmem : b ∈ adjacent_squares ((0 : Int), (0 : Int)) :=
    of_decide_eq_true hadj
  simp only [adjacent_squares, List.mem_cons, List.not_mem_nil,
    or_false] at hmem
  rcases hmem with h | h | h | h <;> subst h
  · exact absurd hmb (by decide)
  · exact absurd hb (by decide)
  · exact absurd hmb (by decide)
  · exact absurd hb (by decide)

/-- Claim C5, counterexample.  The fair-play check guards only the
opponent of the placing player.  In gC5, player 1 sits at (0,0) with
the edge to (0,1) already fenced; placing a vertical fence at (1,0)
seals player 1 in completely, yet the check (which searches from the
player 2 pawn) passes and the fence is committed.  Afterwards player 1
has no path to row 8: the engine search from (0,0) answers false, and
no step-path exists at all. -/
theorem C5_self_trap_counterexample :
    place_fence gC5 1 "v" (1, 0) = some (PFOut.tru, gC5post) ∧
    rec_is_valid_path gC5post 8 81 [((0 : Int), (0 : Int))] = some false ∧
    ¬ ∃ cell, SpecReach gC5post (0, 0) cell ∧ cell.2 = 8 := by
  refine ⟨by decide, by decide, ?_⟩
  rintro ⟨cell, hreach, hrow⟩
  rcases Relation.ReflTransGen.cases_head hreach with heq | ⟨mid, hstep, _⟩
  · subst heq
    exact absurd hrow (by decide)
  · exact gC5post_no_step mid hstep

/-- Claim C5, amended.  After every fence placement that the fair-play
check accepts and that is committed, the OPPONENT of the placing player
retains a path, through in-bounds unblocked steps of the board with the
new fence, from their pawn to the goal row checked by the engine (the
placing player base row); the placing player own path is not checked
and can be lost, as the counterexample shows. -/
theorem C5_opponent_path_after_commit (g : Game) (p : Int) (orient : String)
    (c : Cell) (g2 : Game)
    (h : place_fence g p orient c = some (PFOut.tru, g2)) :
    ∃ fidx start cell,
      fenceIndexOf orient = some fidx ∧
      position (setFence g fidx c 1).board0 (if p = 1 then 2 else 1)
        = some start ∧
      SpecReach (setFence g fidx c 1) start cell ∧
      cell.2 = (if p = 1 then (0 : Int) else 8) := by
  rcases place_fence_inv h with ⟨hout, _⟩ |
    ⟨fidx, b, gr, hfo, _, _, _, _, _, _, _, hivp, _, hcase⟩
  · cases hout
  · rcases hcase with ⟨_, hout, _⟩ | ⟨hb, _, _⟩
    · cases hout
    · subst hb
      obtain ⟨_, start, hpos, hrec⟩ := is_valid_path_inv hivp
      obtain ⟨cell, hreach, hrow⟩ := rec_is_valid_path_sound 81 [start]
        (by
          intro x hx
          simp only [List.mem_singleton] at hx
          subst hx
          exact Relation.ReflTransGen.refl) hrec
      exact ⟨fidx, start, cell, hfo, hpos, hreach, hrow⟩

theorem C5_witness :
    ∃ fidx start cell,
      fenceIndexOf "v" = some fidx ∧
      position (setFence gC7 fidx (8, 8) 1).board0
        (if (1 : Int) = 1 then 2 else 1) = some start ∧
      SpecReach (setFence gC7 fidx (8, 8) 1) start cell ∧
      cell.2 = (if (1 : Int) = 1 then (0 : Int) else 8) :=
  C5_opponent_path_after_commit gC7 1 "v" (8, 8) gC7post (by decide)

/-- Claim C7.  Budgets start at 10 each; a successful placement by
player 1 or 2 decrements exactly that player budget by 1; every
unsuccessful outcome leaves both budgets unchanged; budgets never go
negative from a nonnegative state; a player with budget 0 always gets
the no-fences-remaining rejection (the False return with unchanged
state) regardless of orientation and coordinates; and move_pawn never
touches either budget. -/
theorem C7_fence_budget (g : Game) (p : Int) (orient : String) (c : Cell)
    (out : PFOut) (g2 : Game)
    (h : place_fence g p orient c = some (out, g2)) :
    (initGame.playerOneFences = 10 ∧ initGame.playerTwoFences = 10) ∧
    (out = PFOut.tru → p = 1 →
      g2.playerOneFences = g.playerOneFences - 1 ∧
      g2.playerTwoFences = g.playerTwoFences) ∧
    (out = PFOut.tru → p = 2 →
      g2.playerTwoFences = g.playerTwoFences - 1 ∧
      g2.playerOneFences = g.playerOneFences) ∧
    (out ≠ PFOut.tru → g2.playerOneFences = g.playerOneFences ∧
      g2.playerTwoFences = g.playerTwoFences) ∧
    (0 ≤ g.playerOneFences → 0 ≤ g2.playerOneFences) ∧
    (0 ≤ g.playerTwoFences → 0 ≤ g2.playerTwoFences) ∧
    (∀ (g3 : Game) (o2 : String) (c2 : Cell) (out2 : PFOut) (g4 : Game),
      g3.playerOneFences = 0 → place_fence g3 1 o2 c2 = some (out2, g4) →
      out2 = PFOut.fls ∧ g4 = g3) ∧
    (∀ (g3 : Game) (o2 : String) (c2 : Cell) (out2 : PFOut) (g4 : Game),
      g3.playerTwoFences = 0 → place_fence g3 2 o2 c2 = some (out2, g4) →
      out2 = PFOut.fls ∧ g4 = g3) ∧
    (∀ (g3 : Game) (p2 : Int) (d : Cell) (b : Bool) (g4 : Game),
      move_pawn g3 p2 d = some (b, g4) →
      g4.playerOneFences = g3.playerOneFences ∧
      g4.playerTwoFences = g3.playerTwoFences) := by
  have hmain : (out ≠ PFOut.tru ∧ g2.playerOneFences = g.playerOneFences ∧
      g2.playerTwoFences = g.playerTwoFences) ∨
    (out = PFOut.tru ∧ ¬ (p = 1 ∧ g.playerOneFences = 0) ∧
      ¬ (p = 2 ∧ g.playerTwoFences = 0) ∧
      g2.playerOneFences = (if p = 1 then g.playerOneFences - 1
        else g.playerOneFences) ∧
      g2.playerTwoFences = (if p = 2 then g.playerTwoFences - 1
        else g.playerTwoFences)) := by
    rcases place_fence_inv h with ⟨hout, hg⟩ |
      ⟨fidx, b, gr, _, _, hnb1, hnb2, _, _, _, _, _, hgr, hcase⟩
    · subst hg
      subst hout
      exact Or.inl ⟨(by intro hc; cases hc), rfl, rfl⟩
    · rcases hcase with ⟨_, hout, hg2⟩ | ⟨_, hout, hg2⟩
      · subst hg2
        subst hout
        subst hgr
        exact Or.inl ⟨(by intro hc; cases hc), gr_budgets.1, gr_budgets.2.1⟩
      · subst hg2
        subst hout
        subst hgr
        refine Or.inr ⟨rfl, hnb1, hnb2, ?_, ?_⟩
        · rw [flipTurn_p1]
          by_cases hp1 : p = 1
          · subst hp1
            rw [if_pos rfl, (decBudget_one _).1, setFence_p1, gr_budgets.1]
          · rw [if_neg hp1]
            by_cases hp2 : p = 2
            · subst hp2
              rw [(decBudget_two _).2, setFence_p1, gr_budgets.1]
            · rw [decBudget_other _ hp1 hp2, setFence_p1, gr_budgets.1]
        · rw [flipTurn_p2]
          by_cases hp2 : p = 2
          · subst hp2
            rw [if_pos rfl, (decBudget_two _).1, setFence_p2, gr_budgets.2.1]
          · rw [if_neg hp2]
            by_cases hp1 : p = 1
            · subst hp1
              rw [(decBudget_one _).2, setFence_p2, gr_budgets.2.1]
            · rw [decBudget_other _ hp1 hp2, setFence_p2, gr_budgets.2.1]
  refine ⟨⟨rfl, rfl⟩, ?_, ?_, ?_, ?_, ?_, ?_, ?_, ?_⟩
  · intro htru hp1
    subst hp1
    rcases hmain with ⟨hne, _⟩ | ⟨_, _, _, e1, e2⟩
    · exact absurd htru hne
    · rw [e1, e2, if_pos rfl, if_neg (by omega)]
      exact ⟨rfl, rfl⟩
  · intro htru hp2
    subst hp2
    rcases hmain with ⟨hne, _⟩ | ⟨_, _, _, e1, e2⟩
    · exact absurd htru hne
    · rw [e1, e2, if_pos rfl, if_neg (by omega)]
      exact ⟨rfl, rfl⟩
  · intro hne
    rcases hmain with ⟨_, e1, e2⟩ | ⟨htru, _⟩
    · exact ⟨e1, e2⟩
    · exact absurd htru hne
  · intro h0
    rcases hmain with ⟨_, e1, _⟩ | ⟨_, hnb1, _, e1, _⟩
    · rw [e1]; exact h0
    · rw [e1]
      by_cases hp1 : p = 1
      · rw [if_pos hp1]
        have : ¬ g.playerOneFences = 0 := fun hz => hnb1 ⟨hp1, hz⟩
        omega
      · rw [if_neg hp1]; exact h0
  · intro h0
    rcases hmain with ⟨_, _, e2⟩ | ⟨_, _, hnb2, _, e2⟩
    · rw [e2]; exact h0
    · rw [e2]
      by_cases hp2 : p = 2
      · rw [if_pos hp2]
        have : ¬ g.playerTwoFences = 0 := fun hz => hnb2 ⟨hp2, hz⟩
        omega
      · rw [if_neg hp2]; exact h0
  · intro g3 o2 c2 out2 g4 h30 hpf
    rcases place_fence_inv hpf with ⟨hout, hg⟩ |
      ⟨_, _, _, _, _, hnb1, _, _, _, _, _, _, _, _⟩
    · exact ⟨hout, hg⟩
    · exact absurd ⟨rfl, h30⟩ hnb1
  · intro g3 o2 c2 out2 g4 h30 hpf
    rcases place_fence_inv hpf with ⟨hout, hg⟩ |
      ⟨_, _, _, _, _, _, hnb2, _, _, _, _, _, _, _⟩
    · exact ⟨hout, hg⟩
    · exact absurd ⟨rfl, h30⟩ hnb2
  · intro g3 p2 d b g4 hmp
    rcases move_pawn_inv hmp with ⟨_, hg⟩ | ⟨_, _, _, e1, e2, _⟩
    · subst hg; exact ⟨rfl, rfl⟩
    · exact ⟨e1, e2⟩

theorem C7_witness :
    gC7post.playerOneFences = gC7.playerOneFences - 1 ∧
    gC7post.playerTwoFences = gC7.playerTwoFences :=
  (C7_fence_budget gC7 1 "v" (8, 8) PFOut.tru gC7post (by decide)).2.1
    rfl rfl

/-- Claim C8.  The fair-play reachability search always terminates on a
well-formed board: from any in-bounds start cell, outer fuel 81 (one
unit per expansion round) is enough for _rec_is_valid_path to return an
answer, because the space list holds distinct in-bounds cells, grows
monotonically under each expansion, and is bounded by the 81 board
cells. -/
theorem C8_search_terminates (g : Game) (endRow : Int) (start : Cell)
    (hw : WFGame g) (hs : inB start = true) :
    (∃ b, rec_is_valid_path g endRow 81 [start] = some b) ∧
    (∀ (fuel : Nat) (l : List Cell) (i addc : Nat) (l2 : List Cell)
        (c2 : Nat), l.Nodup → AllInB l →
      innerLoop g endRow fuel l i addc = some (LoopRes.finished l2 c2) →
      l ⊆ l2 ∧ l2.Nodup ∧ AllInB l2 ∧ l2.length ≤ 81) := by
  constructor
  · apply rec_is_valid_path_total hw 81 [start]
    · exact List.nodup_singleton start
    · intro x hx
      simp only [List.mem_singleton] at hx
      subst hx
      exact hs
    · simp
    · simp
  · intro fuel l i addc l2 c2 hnd hb hloop
    have hspec := innerLoop_finished_spec fuel l i addc l2 c2 hloop
    have hnd2 := hspec.2.2.2.1 hnd
    have hb2 := hspec.2.2.2.2 hb
    exact ⟨hspec.1, hnd2, hb2, nodup_length_le_81 hnd2 hb2⟩

theorem C8_witness :
    ∃ b, rec_is_valid_path initGame 8 81 [((4 : Int), (8 : Int))] = some b :=
  (C8_search_terminates initGame 8 (4, 8) (by decide) (by decide)).1

/-- Claim C9.  For a player value other than 1 and 2 (such as 3),
place_fence applies no turn check and no budget check: while neither
player has won, given a recognized orientation, an in-range unoccupied
anchor and a passing fair-play check, the fence is committed, neither
budget changes, and the turn flag flips. -/
theorem C9_unknown_player_places_fence (g : Game) (p : Int) (orient : String)
    (c : Cell) (fidx : Nat) (gr : Game) (hw : WFGame g)
    (hp1 : p ≠ 1) (hp2 : p ≠ 2)
    (hnw1 : is_winner g 1 = some false) (hnw2 : is_winner g 2 = some false)
    (hori : (orient = "v" ∧ fidx = 1) ∨ (orient = "h" ∧ fidx = 2))
    (hrange1 : fidx = 1 → 1 ≤ c.1 ∧ c.1 ≤ 8 ∧ 0 ≤ c.2 ∧ c.2 ≤ 8)
    (hrange2 : fidx = 2 → 0 ≤ c.1 ∧ c.1 ≤ 8 ∧ 1 ≤ c.2 ∧ c.2 ≤ 8)
    (hocc : gridGet (if fidx = 1 then g.board1 else g.board2) c.1 c.2
      ≠ some 1)
    (hfair : is_valid_path g p fidx c = some (true, gr)) :
    ∃ g2, place_fence g p orient c = some (PFOut.tru, g2) ∧
      g2.playerOneFences = g.playerOneFences ∧
      g2.playerTwoFences = g.playerTwoFences ∧
      g2.firstPlayerTurn = (! g.firstPlayerTurn) ∧
      gridGet (if fidx = 1 then g2.board1 else g2.board2) c.1 c.2
        = some 1 := by
  have hpm : player_may_move g p = some true := by
    unfold player_may_move
    simp [hnw1, hnw2, hp1, hp2]
  have hgr : gr = setFence (setFence g fidx c 1) fidx c 0 :=
    (is_valid_path_inv hfair).1
  have hgrw : WFGame gr := by
    rw [hgr]
    exact WFGame_setFence (WFGame_setFence hw fidx c 1) fidx c 0
  have hgrp1 : gr.playerOneFences = g.playerOneFences := by
    rw [hgr]; exact gr_budgets.1
  have hgrp2 : gr.playerTwoFences = g.playerTwoFences := by
    rw [hgr]; exact gr_budgets.2.1
  have hgrt : gr.firstPlayerTurn = g.firstPlayerTurn := by
    rw [hgr]; exact gr_budgets.2.2
  refine ⟨flipTurn (decBudget p (setFence gr fidx c 1)), ?_, ?_, ?_, ?_, ?_⟩
  · rcases hori with ⟨ho, hf⟩ | ⟨ho, hf⟩ <;> subst ho <;> subst hf
    · obtain ⟨hx1, hx8, hy0, hy8⟩ := hrange1 rfl
      rw [if_pos rfl] at hocc
      obtain ⟨v, hv⟩ := gridGet_total hw.2.1 (by omega) hx8 hy0 hy8
      have hvne : v ≠ 1 := fun hveq => hocc (hveq ▸ hv)
      unfold place_fence
      simp only [hpm, Option.some_bind]
      rw [if_neg (by simp), if_neg (fun hc => hp1 hc.1),
        if_neg (fun hc => hp2 hc.1),
        show fenceIndexOf "v" = some 1 from rfl]
      simp only [Option.elim_some]
      rw [if_neg (fun hc => hc.2 ⟨hx1, hx8, hy0, hy8⟩),
        if_neg (fun hc => absurd hc.1 (by decide))]
      rw [if_pos trivial, hv, Option.some_bind]
      rw [if_neg hvne]
      simp only [hfair, Option.some_bind]
      rw [if_neg (by simp)]
    · obtain ⟨hx0, hx8, hy1, hy8⟩ := hrange2 rfl
      rw [if_neg (by omega)] at hocc
      obtain ⟨v, hv⟩ := gridGet_total hw.2.2 hx0 hx8 (by omega) hy8
      have hvne : v ≠ 1 := fun hveq => hocc (hveq ▸ hv)
      unfold place_fence
      simp only [hpm, Option.some_bind]
      rw [if_neg (by simp), if_neg (fun hc => hp1 hc.1),
        if_neg (fun hc => hp2 hc.1),
        show fenceIndexOf "h" = some 2 from rfl]
      simp only [Option.elim_some]
      rw [if_neg (fun hc => absurd hc.1 (by decide)),
        if_neg (fun hc => hc.2 ⟨hx0, hx8, hy1, hy8⟩)]
      rw [if_neg (by decide : ¬ (2 : Nat) = 1), hv, Option.some_bind]
      rw [if_neg hvne]
      simp only [hfair, Option.some_bind]
      rw [if_neg (by simp)]
  · rw [flipTurn_p1, decBudget_other _ hp1 hp2, setFence_p1, hgrp1]
  · rw [flipTurn_p2, decBudget_other _ hp1 hp2, setFence_p2, hgrp2]
  · rw [flipTurn_turn, decBudget_turn, setFence_turn, hgrt]
  · have hb := bounds_of_inv (by
      rcases hori with ⟨_, hf⟩ | ⟨_, hf⟩
      · exact Or.inl hf
      · exact Or.inr hf) hrange1 hrange2
    rcases hori with ⟨_, hf⟩ | ⟨_, hf⟩ <;> subst hf
    · rw [if_pos rfl, (flipTurn_boards _).1, (decBudget_boards _ _).1]
      show gridGet (setCell gr.board1 c.1 c.2 1) c.1 c.2 = some 1
      exact gridGet_setCell_same hgrw.2.1 hb.1 hb.2.1 hb.2.2.1 hb.2.2.2 1
    · rw [if_neg (by decide), (flipTurn_boards _).2, (decBudget_boards _ _).2]
      show gridGet (setCell gr.board2 c.1 c.2 1) c.1 c.2 = some 1
      exact gridGet_setCell_same hgrw.2.2 hb.1 hb.2.1 hb.2.2.1 hb.2.2.2 1

theorem C9_witness :
    ∃ g2, place_fence gC9 3 "v" (5, 5) = some (PFOut.tru, g2) ∧
      g2.playerOneFences = gC9.playerOneFences ∧
      g2.playerTwoFences = gC9.playerTwoFences ∧
      g2.firstPlayerTurn = (! gC9.firstPlayerTurn) ∧
      gridGet (if (1 : Nat) = 1 then g2.board1 else g2.board2) 5 5
        = some 1 :=
  C9_unknown_player_places_fence gC9 3 "v" (5, 5) 1 gC9 (by decide)
    (by decide) (by decide) (by decide) (by decide) (Or.inl ⟨rfl, rfl⟩)
    (by decide) (by decide) (by decide) (by decide)

/-- Claim C10.  Whenever place_fence rejects a placement on the
fair-play rule it returns the warning string (modelled by
PFOut.fairPlay), which is truthy in Python, unlike the False returned
for every other rejection; the state, including fences, budgets, pawns
and the turn flag, is returned unchanged. -/
theorem C10_fairplay_string_truthy (g : Game) (p : Int) (orient : String)
    (c : Cell) (g2 : Game) (hw : WFGame g) (hb1 : BoolGrid g.board1)
    (hb2 : BoolGrid g.board2)
    (h : place_fence g p orient c = some (PFOut.fairPlay, g2)) :
    pyTruthy PFOut.fairPlay = true ∧ pyTruthy PFOut.fls = false ∧
    g2 = g := by
  refine ⟨rfl, rfl, ?_⟩
  rcases place_fence_inv h with ⟨hout, _⟩ |
    ⟨fidx, b, gr, _, _, _, _, hfx, hr1, hr2, hocc, _, hgr, hcase⟩
  · cases hout
  · obtain ⟨hx0, _, hy0, _⟩ := bounds_of_inv hfx hr1 hr2
    rcases hcase with ⟨_, _, hg2⟩ | ⟨_, hout, _⟩
    · subst hg2
      rw [hgr]
      exact fairPlay_restore hw hb1 hb2 hfx hx0 hy0 hocc
    · cases hout

theorem C10_witness :
    pyTruthy PFOut.fairPlay = true ∧ pyTruthy PFOut.fls = false ∧
    gSeal = gSeal :=
  C10_fairplay_string_truthy gSeal 1 "v" (1, 2) gSeal (by decide)
    (by decide) (by decide) (by decide)

end Quoridor
